import Mathlib

set_option maxRecDepth 100000

/-!
Verification development for the google-trends-scraper repository.

The definitions below are a shallow embedding of the TypeScript source:

* `src/utils/helpers.ts` — the field normalizers `cleanBreakdown` and
  `parseComplexSearchVolume`, plus the market-group tables used by the
  datastore upsert.
* `src/scrapers/GoogleTrendsScraper.ts` — the pagination loop of
  `scrapeCountry` (the fixed, content-fingerprint version at the top of the
  file) and the per-market sequencing of `scrapeAll`.
* `src/scraper.ts` / `src/service/analyzer.ts` — the AI-score batch merge.
* `saveResultsToSupabase` (the scraper entry variant with the Supabase
  sink) — the row-selection logic for the remote upsert.

JavaScript strings are modelled as `String`/`List Char`; JavaScript numbers
produced by this code are integer-valued or `NaN` and are modelled as
`Option Int` with `none` for `NaN` (intermediate `parseFloat` values are
exact decimals, where the model and the IEEE double agree on every value
this code can produce before its final `Math.floor`).
-/

/-- The JavaScript whitespace class used by `String.prototype.trim` and the
regex class `\s` (ASCII whitespace, NBSP, the Unicode space separators, the
line/paragraph separators and the BOM). -/
def jsWs (c : Char) : Bool :=
  c = ' ' || c = '\t' || c = '\n' || c.toNat = 11 || c.toNat = 12 || c = '\r' ||
  c.toNat = 160 || c.toNat = 0x1680 || (0x2000 ≤ c.toNat && c.toNat ≤ 0x200A) ||
  c.toNat = 0x2028 || c.toNat = 0x2029 || c.toNat = 0x202F || c.toNat = 0x205F ||
  c.toNat = 0x3000 || c.toNat = 0xFEFF

/-- `String.prototype.trim` on a character list: drop JS whitespace from
both ends. -/
def trimL (l : List Char) : List Char :=
  ((l.dropWhile jsWs).reverse.dropWhile jsWs).reverse

/-- `String.prototype.trim`. -/
def jsTrim (s : String) : String :=
  String.mk (trimL s.data)

/-- Worker for `collapseWs`: the boolean records whether the scan is inside
a whitespace run (the run has already emitted its single space). -/
def collapseGo : Bool → List Char → List Char
  | _, [] => []
  | inRun, c :: rest =>
    if jsWs c then
      if inRun then collapseGo true rest
      else ' ' :: collapseGo true rest
    else c :: collapseGo false rest

/-- `.replace(/\s+/g, ' ')`: collapse every maximal run of JS whitespace to
a single space. -/
def collapseWs (l : List Char) : List Char :=
  collapseGo false l

/-- Substring containment test (used to state counterexamples and the
`includes` calls of the source). -/
def containsSubstr : List Char → List Char → Bool
  | [], pat => pat.isPrefixOf ([] : List Char)
  | c :: rest, pat => pat.isPrefixOf (c :: rest) || containsSubstr rest pat

/-- Fuelled worker for `removeOcc`; the fuel is an upper bound on the list
length, so the out-of-fuel branch is never reached. -/
def removeOccF (pat : List Char) : Nat → List Char → List Char
  | 0, _ => []
  | _ + 1, [] => []
  | fuel + 1, c :: rest =>
    if pat.isPrefixOf (c :: rest) ∧ 0 < pat.length then
      removeOccF pat fuel (List.drop (pat.length - 1) rest)
    else c :: removeOccF pat fuel rest

/-- One literal-pattern pass of `String.prototype.replace(/pat/g, '')`:
scan left to right, removing non-overlapping occurrences of `pat`. -/
def removeOcc (pat l : List Char) : List Char :=
  removeOccF pat l.length l

/-- Length of the match of the regex `\+ \d+ more` at the head of the list,
or 0 when there is no match (the `\d+` is greedy; since a digit can never
match the following space, greediness needs no backtracking). -/
def plusMoreLen (l : List Char) : Nat :=
  match l with
  | '+' :: ' ' :: rest =>
    let ds := rest.takeWhile Char.isDigit
    if ds.isEmpty then 0
    else if [' ', 'm', 'o', 'r', 'e'].isPrefixOf (rest.drop ds.length) then
      2 + ds.length + 5
    else 0
  | _ => 0

/-- Fuelled worker for `removePlusMore`; the fuel is an upper bound on the
list length. -/
def removePlusMoreF : Nat → List Char → List Char
  | 0, _ => []
  | _ + 1, [] => []
  | fuel + 1, c :: rest =>
    let n := plusMoreLen (c :: rest)
    if n = 0 then c :: removePlusMoreF fuel rest
    else removePlusMoreF fuel (List.drop (n - 1) rest)

/-- `.replace(/\+ \d+ more/g, '')`: remove every show-more counter. -/
def removePlusMore (l : List Char) : List Char :=
  removePlusMoreF l.length l

/-- `cleanBreakdown` from `src/utils/helpers.ts`: remove the show-more
counter, the UI label words, then trim and collapse whitespace (the order
of the five chained `replace`/`trim` calls of the source is preserved). -/
def cleanBreakdown (breakdown : String) : String :=
  String.mk (collapseWs (trimL
    (removeOcc "Explore".data
      (removeOcc "query_stats".data
        (removeOcc "Search term".data
          (removePlusMore breakdown.data))))))

/-! ### `parseComplexSearchVolume` (src/utils/helpers.ts)

The source matches the anchored regex
`^([\d,.]+[KM]?\+?)(.*?)([\d,]+)%?$` and interprets the three groups as
magnitude, direction marker and delta.  The matcher below implements the
JavaScript backtracking order: group 1's atoms are greedy, group 2 is lazy,
group 3 is greedy. -/

/-- Character class `[\d,.]` of the magnitude group. -/
def isVolChar (c : Char) : Bool := c.isDigit || c = ',' || c = '.'

/-- Character class `[\d,]` of the delta group. -/
def isTrendChar (c : Char) : Bool := c.isDigit || c = ','

/-- JavaScript `.` (without the `s` flag): any character except the four
line terminators. -/
def isDotChar (c : Char) : Bool :=
  !(c = '\n' || c = '\r' || c.toNat = 0x2028 || c.toNat = 0x2029)

/-- The three capture groups of a successful match. -/
structure VolMatch where
  g1 : List Char
  g2 : List Char
  g3 : List Char
deriving DecidableEq, Repr

/-- Greedy match of `([\d,]+)%?$` against `l`, trying delta lengths from
`k` (at most the maximal `[\d,]` prefix) downwards; returns group 3. -/
def findG3 (l : List Char) : Nat → Option (List Char)
  | 0 => none
  | k + 1 =>
    let rest := l.drop (k + 1)
    if rest = [] ∨ rest = ['%'] then some (l.take (k + 1)) else findG3 l k

/-- Lazy group 2 followed by `([\d,]+)%?$`: the shortest group 2 wins.
The first argument accumulates group 2 in reverse. -/
def findG23 : List Char → List Char → Option (List Char × List Char)
  | g2acc, rem =>
    match findG3 rem ((rem.takeWhile isTrendChar).length) with
    | some g3 => some (g2acc.reverse, g3)
    | none =>
      match rem with
      | [] => none
      | c :: rest => if isDotChar c then findG23 (c :: g2acc) rest else none

/-- Try to finish the match after group 1 is fixed. -/
def tryTail (g1 rest : List Char) : Option VolMatch :=
  match findG23 [] rest with
  | some (g2, g3) => some { g1 := g1, g2 := g2, g3 := g3 }
  | none => none

/-- Greedy optional `\+` at the end of group 1. -/
def tryPlus (g1 rest : List Char) : Option VolMatch :=
  match rest with
  | '+' :: rest2 => (tryTail (g1 ++ ['+']) rest2).orElse (fun _ => tryTail g1 rest)
  | _ => tryTail g1 rest

/-- Greedy optional `[KM]` inside group 1. -/
def tryKM (g1 rest : List Char) : Option VolMatch :=
  match rest with
  | c :: rest2 =>
    if c = 'K' ∨ c = 'M' then
      (tryPlus (g1 ++ [c]) rest2).orElse (fun _ => tryPlus g1 rest)
    else tryPlus g1 rest
  | [] => tryPlus g1 []

/-- Greedy `[\d,.]+` at the start of group 1, trying lengths from `a`
downwards (at most the maximal `[\d,.]` prefix of the subject). -/
def tryNum (l : List Char) : Nat → Option VolMatch
  | 0 => none
  | a + 1 => (tryKM (l.take (a + 1)) (l.drop (a + 1))).orElse (fun _ => tryNum l a)

/-- Anchored match of the whole volume regex against the subject. -/
def matchVolume (l : List Char) : Option VolMatch :=
  tryNum l ((l.takeWhile isVolChar).length)

/-- `parseInt(s, 10)`-style digit accumulation. -/
def parseDigits (l : List Char) : Nat :=
  l.foldl (fun n c => n * 10 + (c.toNat - '0'.toNat)) 0

/-- An exact decimal number `num / 10 ^ exp`: the value produced by
`parseFloat` on this code path (whose inputs are drawn from the regex
alphabet with commas removed, so every value is a finite decimal and the
IEEE double rounding never shows up after the final `Math.floor`). -/
structure JSDec where
  num : Int
  exp : Nat
deriving DecidableEq, Repr

/-- `Math.floor` of `d * mult` for an exact decimal `d`. -/
def floorScaled (d : JSDec) (mult : Nat) : Int :=
  Int.fdiv (d.num * (mult : Int)) ((10 : Int) ^ d.exp)

/-- JavaScript `parseFloat` on the strings this code path can produce
(optional whitespace and sign, digits, optional fraction; `none` is `NaN`.
The exponent form cannot occur here: the input is drawn from the regex
alphabet `[\d,.KM+]` with commas removed). -/
def parseFloatDec (l0 : List Char) : Option JSDec :=
  let l1 := l0.dropWhile jsWs
  let sign : Int := if l1.head? = some '-' then -1 else 1
  let l2 := if l1.head? = some '-' ∨ l1.head? = some '+' then l1.drop 1 else l1
  let intPart := l2.takeWhile Char.isDigit
  let rest := l2.dropWhile Char.isDigit
  match rest with
  | '.' :: r2 =>
    let fracPart := r2.takeWhile Char.isDigit
    if intPart = [] ∧ fracPart = [] then none
    else some { num := sign * ((parseDigits intPart * 10 ^ fracPart.length
                  + parseDigits fracPart : Nat) : Int),
                exp := fracPart.length }
  | _ =>
    if intPart = [] then none
    else some { num := sign * (parseDigits intPart : Int), exp := 0 }

/-- JavaScript `parseInt(s, 10)`; `none` is `NaN`. -/
def parseIntL (l0 : List Char) : Option Int :=
  let l1 := l0.dropWhile jsWs
  let sign : Int := if l1.head? = some '-' then -1 else 1
  let l2 := if l1.head? = some '-' ∨ l1.head? = some '+' then l1.drop 1 else l1
  let ds := l2.takeWhile Char.isDigit
  if ds = [] then none else some (sign * (parseDigits ds : Int))

/-- `.replace(/,/g, '')`. -/
def removeCommas (l : List Char) : List Char :=
  l.filter (fun c => c ≠ ',')

/-- The record returned by `parseComplexSearchVolume`.  Both fields are JS
numbers; on every input they are either integer-valued (`Math.floor`,
`±parseInt`) or `NaN`, so they are carried as `Option Int` with `none` for
`NaN`. -/
structure VolumeTrend where
  volume : Option Int
  trend : Option Int
deriving DecidableEq, Repr

/-- `parseComplexSearchVolume` from `src/utils/helpers.ts`. -/
def parseComplexSearchVolume (volumeStr : String) : VolumeTrend :=
  if volumeStr = "" then { volume := some 0, trend := some 0 }
  else
    let m := matchVolume volumeStr.data
    let volumePart : List Char :=
      match m with
      | some vm => vm.g1
      | none => volumeStr.data
    let middlePart : Option (List Char) := m.map VolMatch.g2
    let trendPart : Option (List Char) := m.map VolMatch.g3
    let volume : Option Int :=
      if volumePart = [] then some 0
      else
        let num := parseFloatDec (removeCommas volumePart)
        if (volumePart.map Char.toUpper).contains 'K' then
          num.map (fun d => floorScaled d 1000)
        else if (volumePart.map Char.toUpper).contains 'M' then
          num.map (fun d => floorScaled d 1000000)
        else
          num.map (fun d => floorScaled d 1)
    let trend : Option Int :=
      match trendPart with
      | none => some 0
      | some tp =>
        if tp = [] then some 0
        else
          let trendNum := parseIntL (removeCommas tp)
          let goesDown : Bool :=
            match middlePart with
            | some mid => !mid.isEmpty && containsSubstr (mid.map Char.toLower) "down".data
            | none => false
          if goesDown then trendNum.map (fun x => -x) else trendNum
    { volume := volume, trend := trend }

/-! ### Data model (src/types/index.ts, current field set) -/

/-- Trend status derived from the status-icon marker. -/
inductive TrendStatus
  | active
  | lasted
deriving DecidableEq, Repr

/-- One AI score object `{id, saas_potential_score}` from the scoring
response (src/service/analyzer.ts). -/
structure AIAnalysisResult where
  id : Nat
  saas_potential_score : Int
deriving DecidableEq, Repr

/-- One extracted trend record. -/
structure TrendItem where
  title : String
  searchVolume : Int
  searchTrend : Int
  timeStarted : String
  breakdown : String
  status : TrendStatus
  analysis : Option AIAnalysisResult := none
deriving DecidableEq, Repr

/-- A configured market (country). -/
structure CountryConfig where
  code : String
  name : String
  language : String
deriving DecidableEq, Repr

/-! ### The pagination loop of `scrapeCountry`
(src/scrapers/GoogleTrendsScraper.ts, fixed version)

The browser is abstracted as an environment: for each page index the
environment says which records the extractor produces, whether the
"next" control exists and is disabled, the state of the first-row element
at fingerprint time, and the sequence of first-row states observed by the
polls of `waitForFunction` after the click (an empty or all-failing
sequence models the 15 s timeout expiring). -/

/-- State of the element at the first-row locator. -/
inductive RowState
  | absent
  | present (textContent : Option String)
deriving DecidableEq, Repr

/-- A JavaScript value as compared by `!==` in the poll predicate:
`undefined`, `null`, or a string. -/
inductive JSVal
  | undef
  | null
  | str (s : String)
deriving DecidableEq, Repr

/-- `el.textContent?.trim()` as a JS value (`undefined` when `textContent`
is `null`). -/
def rowTextVal : Option String → JSVal
  | none => JSVal.undef
  | some s => JSVal.str (jsTrim s)

/-- The pre-click fingerprint
`page.$eval(firstRowSelector, el => el.textContent?.trim()).catch(() => null)`:
`null` when the element is absent (the `$eval` rejection is caught). -/
def fingerprintOf : RowState → JSVal
  | RowState.absent => JSVal.null
  | RowState.present txt => rowTextVal txt

/-- The predicate polled by `waitForFunction`:
`!firstRow || firstRow.textContent?.trim() !== initialText`. -/
def changePredicate (st : RowState) (initialText : JSVal) : Bool :=
  match st with
  | RowState.absent => true
  | RowState.present txt => decide (rowTextVal txt ≠ initialText)

/-- The content-change condition in the words of the specification: the
element at the first-row locator either no longer exists, or its text no
longer equals the captured pre-click fingerprint. -/
def specContentChanged (st : RowState) (initialText : JSVal) : Prop :=
  match st with
  | RowState.absent => True
  | RowState.present txt => rowTextVal txt ≠ initialText

/-- What one page of the environment shows to the loop. -/
structure PageView where
  records : List TrendItem
  nextButton : Option Bool
  firstRowBefore : RowState
  postClickPolls : List RowState
deriving Repr

/-- The bounded wait after the click: it succeeds iff some poll satisfies
the change predicate against the captured fingerprint; otherwise the 15 s
timeout expires. -/
def waitOk (pv : PageView) : Bool :=
  pv.postClickPolls.any (fun st => changePredicate st (fingerprintOf pv.firstRowBefore))

/-- `const maxPages = 25` in `scrapeCountry`. -/
def maxPages : Nat := 25

/-- Which `break` (or loop-guard exit) ended the pagination loop; each
constructor corresponds to one distinctly logged exit of the source. -/
inductive StopReason
  | emptyPage
  | noNextButton
  | nextDisabled
  | advanceTimeout
  | pageCap
deriving DecidableEq, Repr

/-- Observable outcome of the pagination loop. -/
structure LoopResult where
  trends : List TrendItem
  reason : StopReason
  lastPage : Nat
deriving DecidableEq, Repr

/-- The `while (currentPage <= maxPages)` loop of `scrapeCountry`.  The
fuel equals `maxPages + 1 - currentPage`, so `fuel = 0` is exactly the
loop guard failing (the page cap). -/
def runPages (pages : Nat → PageView) : Nat → Nat → List TrendItem → LoopResult
  | 0, currentPage, acc =>
    { trends := acc, reason := StopReason.pageCap, lastPage := currentPage }
  | fuel + 1, currentPage, acc =>
    let pv := pages currentPage
    let acc2 := acc ++ pv.records
    if pv.records.length = 0 ∧ currentPage > 1 then
      { trends := acc2, reason := StopReason.emptyPage, lastPage := currentPage }
    else
      match pv.nextButton with
      | none =>
        { trends := acc2, reason := StopReason.noNextButton, lastPage := currentPage }
      | some disabled =>
        if disabled then
          { trends := acc2, reason := StopReason.nextDisabled, lastPage := currentPage }
        else if waitOk pv then
          runPages pages fuel (currentPage + 1) acc2
        else
          { trends := acc2, reason := StopReason.advanceTimeout, lastPage := currentPage }

/-- The whole pagination run of one market, starting at page 1 with no
records. -/
def scrapeLoop (pages : Nat → PageView) : LoopResult :=
  runPages pages maxPages 1 []

/-- The `ScrapeResult` fields the claims are about. -/
structure ScrapeResultSim where
  trends : List TrendItem
  success : Bool
  error : Option String
deriving DecidableEq, Repr

/-- One market's behaviour: either some thrown error before the loop's
result is committed (initial `goto`/`waitForSelector` timeout, or a
mid-run `waitForSelector` throw — in every such case `result.trends` was
never assigned and stays empty), or a full pagination environment. -/
inductive MarketEnv
  | fatal (msg : String)
  | pages (env : Nat → PageView)

/-- `scrapeCountry`: the `try`/`catch` around the loop.  On a throw the
`catch` records the message and `success` stays `false`; otherwise the
loop's records are committed and `success := true`. -/
def scrapeCountrySim : MarketEnv → ScrapeResultSim
  | MarketEnv.fatal msg => { trends := [], success := false, error := some msg }
  | MarketEnv.pages env =>
      { trends := (scrapeLoop env).trends, success := true, error := none }

/-- `scrapeAll`: each configured market is processed in order, each
result appended, regardless of earlier results (no `stop()` call occurs
during a batch run, so the status guard never fires). -/
def scrapeAllSim (markets : List MarketEnv) : List ScrapeResultSim :=
  markets.map scrapeCountrySim

/-- Records of pages `1..n` in order. -/
def collect (pages : Nat → PageView) : Nat → List TrendItem
  | 0 => []
  | n + 1 => collect pages n ++ (pages (n + 1)).records

/-- Page `j` lets the loop advance: it has records, an enabled "next"
control, and the post-click wait sees the content change. -/
def advancing (pages : Nat → PageView) (j : Nat) : Prop :=
  (pages j).records ≠ [] ∧ (pages j).nextButton = some false ∧ waitOk (pages j) = true

/-! ### Market groups and the Supabase upsert rows
(src/utils/helpers.ts, `saveResultsToSupabase` in the Supabase-enabled
scraper entry) -/

/-- `marketGroups` from `src/utils/helpers.ts` (group identifier with its
country codes, in definition order). -/
def marketGroups : List (String × List String) :=
  [("high_potential_ten", ["US", "IN", "ID", "PK", "NG", "BR", "MX", "PH", "VN", "JP"]),
   ("g7_developed", ["US", "CA", "GB", "DE", "FR", "IT", "JP"]),
   ("european_core", ["DE", "GB", "FR", "ES", "NL", "SE"]),
   ("anglosphere", ["US", "GB", "CA", "AU", "NZ", "IE"]),
   ("asean_digital", ["ID", "PH", "VN", "TH", "MY", "SG"]),
   ("latam_major", ["BR", "MX", "AR", "CO", "CL", "PE"]),
   ("mena_hubs", ["AE", "SA", "EG"])]

/-- The reverse map built at module load: each country maps to the first
group that lists it. -/
def countryToGroupMap : List (String × String) :=
  marketGroups.foldl
    (fun m gc =>
      gc.2.foldl
        (fun m2 c => if (m2.lookup c).isSome then m2 else m2 ++ [(c, gc.1)]) m)
    []

/-- `getMarketGroup`: the group of a country code, `"other"` when the code
is in no group. -/
def getMarketGroup (countryCode : String) : String :=
  ((countryToGroupMap.lookup countryCode).getD "other")

/-- The scrape result consumed by the sinks (market identity plus the
fields above). -/
structure ScrapeResult where
  country : CountryConfig
  timestamp : String
  trends : List TrendItem
  success : Bool
  error : Option String := none
deriving Repr

/-- One row pushed to the `google_trends` table. -/
structure SupabaseRow where
  country_code : String
  market_group : String
  title : String
  search_volume_base : Int
  trend_percentage : Int
  time_started : String
  breakdown : String
  status : TrendStatus
deriving DecidableEq, Repr

/-- The row built for one trend of one market's result. -/
def mkRow (r : ScrapeResult) (t : TrendItem) : SupabaseRow :=
  { country_code := r.country.code
    market_group := getMarketGroup r.country.code
    title := t.title
    search_volume_base := t.searchVolume
    trend_percentage := t.searchTrend
    time_started := t.timeStarted
    breakdown := t.breakdown
    status := t.status }

/-- The `trendsToInsert` array of `saveResultsToSupabase`: the two nested
loops with their `success && length > 0` and `status === 'active'` guards,
pushing rows in order. -/
def trendsToInsert (results : List ScrapeResult) : List SupabaseRow :=
  results.foldl
    (fun acc r =>
      if r.success = true ∧ 0 < r.trends.length then
        r.trends.foldl
          (fun acc2 t => if t.status = TrendStatus.active then acc2 ++ [mkRow r t] else acc2)
          acc
      else acc)
    []

/-- The rows in the words of the claim: the active-status trends of the
successful market results, in order. -/
def specUpsertRows (results : List ScrapeResult) : List SupabaseRow :=
  (results.filter (fun r => r.success)).flatMap
    (fun r => (r.trends.filter (fun t => t.status = TrendStatus.active)).map (mkRow r))

/-! ### The AI-score batch and its merge
(src/service/analyzer.ts and the batch loop of `main` in src/scraper.ts) -/

/-- One entry of `inputForAI`: the submitted id is the record's position
in the batch. -/
structure BatchEntry where
  id : Nat
  title : String
  breakdown : String
deriving DecidableEq, Repr

/-- Worker for `buildBatchInput`, carrying the running index. -/
def buildGo : Nat → List TrendItem → List BatchEntry
  | _, [] => []
  | i, t :: rest =>
    { id := i, title := t.title, breakdown := t.breakdown } :: buildGo (i + 1) rest

/-- `inputForAI = trends.map((trend, index) => ({id: index, ...}))`. -/
def buildBatchInput (trends : List TrendItem) : List BatchEntry :=
  buildGo 0 trends

/-- Worker for `mergeAnalyses`, carrying the running index: the record at
position `i` receives `analyses[i]` when that index exists (the source's
truthiness test on `analyses[index]`). -/
def mergeGo (analyses : List AIAnalysisResult) : Nat → List TrendItem → List TrendItem
  | _, [] => []
  | i, t :: rest =>
    (match analyses[i]? with
     | some a => { t with analysis := some a }
     | none => t) :: mergeGo analyses (i + 1) rest

/-- The merge loop
`batch.forEach((trend, index) => { const analysis = analyses[index]; if (analysis) trend.analysis = analysis; })`:
scores are attached by array position, not by the response's `id` field. -/
def mergeAnalyses (batch : List TrendItem) (analyses : List AIAnalysisResult) : List TrendItem :=
  mergeGo analyses 0 batch

/-! ### Lemmas: trimming and whitespace collapsing -/

/-- The head surviving `dropWhile p` does not satisfy `p`. -/
theorem head_dropWhile_false (p : Char → Bool) (l : List Char) :
    ∀ c, (l.dropWhile p).head? = some c → p c = false := by
  induction l with
  | nil => intro c h; simp [List.dropWhile] at h
  | cons a l ih =>
    intro c h
    rw [List.dropWhile_cons] at h
    by_cases hpa : p a
    · rw [if_pos hpa] at h
      exact ih c h
    · rw [if_neg hpa] at h
      simp only [List.head?_cons, Option.some.injEq] at h
      subst h
      exact Bool.eq_false_iff.mpr hpa

/-- `dropWhile` only removes a prefix, so a nonempty result keeps the last
element. -/
theorem getLast_dropWhile (p : Char → Bool) (l : List Char)
    (h : l.dropWhile p ≠ []) : (l.dropWhile p).getLast? = l.getLast? := by
  induction l with
  | nil => simp [List.dropWhile] at h
  | cons a l ih =>
    rw [List.dropWhile_cons] at h ⊢
    by_cases hpa : p a
    · rw [if_pos hpa] at h ⊢
      rw [ih h]
      have hl : l ≠ [] := by
        intro he
        subst he
        simp [List.dropWhile] at h
      cases l with
      | nil => exact absurd rfl hl
      | cons b l2 => rw [List.getLast?_cons_cons]
    · rw [if_neg hpa]

/-- The first character of a trimmed list is not JS whitespace. -/
theorem trimL_head_false (l : List Char) :
    ∀ c, (trimL l).head? = some c → jsWs c = false := by
  intro c h
  unfold trimL at h
  rw [List.head?_reverse] at h
  have hne : (l.dropWhile jsWs).reverse.dropWhile jsWs ≠ [] := by
    intro he
    rw [he] at h
    simp at h
  rw [getLast_dropWhile jsWs _ hne, List.getLast?_reverse] at h
  exact head_dropWhile_false jsWs _ c h

/-- The last character of a trimmed list is not JS whitespace. -/
theorem trimL_getLast_false (l : List Char) :
    ∀ c, (trimL l).getLast? = some c → jsWs c = false := by
  intro c h
  unfold trimL at h
  rw [List.getLast?_reverse] at h
  exact head_dropWhile_false jsWs _ c h

/-- One unfolding step of `collapseGo` on a cons cell. -/
theorem collapseGo_cons (b : Bool) (c : Char) (l : List Char) :
    collapseGo b (c :: l) =
      if jsWs c then (if b then collapseGo true l else ' ' :: collapseGo true l)
      else c :: collapseGo false l := by
  cases b <;> simp [collapseGo]

/-- Collapsing preserves a non-whitespace last character. -/
theorem collapseGo_getLast (l : List Char) :
    ∀ b : Bool, l ≠ [] → (∀ c, l.getLast? = some c → jsWs c = false) →
      collapseGo b l ≠ [] ∧
        ∀ c, (collapseGo b l).getLast? = some c → jsWs c = false := by
  induction l with
  | nil => intro b hl _; exact absurd rfl hl
  | cons a l ih =>
    intro b _ h
    cases l with
    | nil =>
      have ha : jsWs a = false := h a (by simp)
      constructor
      · simp [collapseGo_cons, ha]
      · intro c hc
        have hsing : collapseGo b [a] = [a] := by
          rw [collapseGo_cons, if_neg (by simp [ha])]
          rfl
        rw [hsing] at hc
        simp at hc
        subst hc
        exact ha
    | cons d l2 =>
      have h' : ∀ c, (d :: l2).getLast? = some c → jsWs c = false := by
        intro c hc
        exact h c (by rwa [List.getLast?_cons_cons])
      by_cases ha : jsWs a
      · cases b with
        | true =>
          have := ih true (by simp) h'
          rw [collapseGo_cons, if_pos ha, if_pos rfl]
          exact this
        | false =>
          obtain ⟨hne, hlast⟩ := ih true (by simp) h'
          rw [collapseGo_cons, if_pos ha, if_neg (by simp)]
          constructor
          · simp
          · intro c hc
            cases hx : collapseGo true (d :: l2) with
            | nil => exact absurd hx hne
            | cons e l3 =>
              rw [hx, List.getLast?_cons_cons] at hc
              exact hlast c (hx ▸ hc)
      · obtain ⟨hne, hlast⟩ := ih false (by simp) h'
        rw [collapseGo_cons, if_neg ha]
        constructor
        · simp
        · intro c hc
          cases hx : collapseGo false (d :: l2) with
          | nil => exact absurd hx hne
          | cons e l3 =>
            rw [hx, List.getLast?_cons_cons] at hc
            exact hlast c (hx ▸ hc)

/-! ### Lemmas: the pagination loop -/

/-- `currentPage` only increases, so the exit page is at least the entry
page. -/
theorem runPages_lastPage_ge (pages : Nat → PageView) :
    ∀ (fuel p : Nat) (acc : List TrendItem),
      p ≤ (runPages pages fuel p acc).lastPage := by
  intro fuel
  induction fuel with
  | zero => intro p acc; simp [runPages]
  | succ fuel ih =>
    intro p acc
    simp only [runPages]
    by_cases h1 : (pages p).records.length = 0 ∧ p > 1
    · simp [h1]
    · rw [if_neg h1]
      cases hb : (pages p).nextButton with
      | none => simp
      | some disabled =>
        by_cases hd : disabled
        · simp [hd]
        · by_cases hw : waitOk (pages p)
          · simp only [hd, hw, if_true, if_false, Bool.false_eq_true]
            exact le_trans (Nat.le_succ p) (ih (p + 1) _)
          · simp [hd, hw]

/-- Unfolding `collect` at a positive page index. -/
theorem collect_eq_append (pages : Nat → PageView) (p : Nat) (hp : 1 ≤ p) :
    collect pages p = collect pages (p - 1) ++ (pages p).records := by
  conv_lhs => rw [show p = (p - 1) + 1 by omega]
  rw [collect]
  rw [show p - 1 + 1 = p by omega]

/-- If pages `1..K-1` all advance, the run reaches page `K` carrying the
records of those pages. -/
theorem scrapeLoop_reach (pages : Nat → PageView) :
    ∀ K : Nat, 1 ≤ K → K ≤ maxPages + 1 →
      (∀ j, 1 ≤ j → j < K → advancing pages j) →
      scrapeLoop pages =
        runPages pages (maxPages + 1 - K) K (collect pages (K - 1)) := by
  intro K
  induction K with
  | zero => intro h1 _ _; omega
  | succ K ih =>
    intro h1 h2 hadv
    rcases Nat.eq_zero_or_pos K with hK0 | hKpos
    · subst hK0
      simp [scrapeLoop, collect]
    · have hadv2 : ∀ j, 1 ≤ j → j < K → advancing pages j :=
        fun j aj bj => hadv j aj (by omega)
      rw [ih hKpos (by omega) hadv2]
      obtain ⟨hrec, hbtn, hwait⟩ := hadv K hKpos (by omega)
      rw [show maxPages + 1 - K = (maxPages - K) + 1 by omega]
      simp only [runPages]
      have hlen : ¬((pages K).records.length = 0 ∧ K > 1) := by
        rintro ⟨hl, _⟩
        exact hrec (List.length_eq_zero.mp hl)
      rw [if_neg hlen, hbtn]
      simp only [hwait, if_true, if_false, Bool.false_eq_true]
      rw [show maxPages - K = maxPages + 1 - (K + 1) by omega,
        ← collect_eq_append pages K hKpos]
      simp

/-- The records of any run are the records of some prefix of at most
`maxPages` pages. -/
theorem runPages_shape (pages : Nat → PageView) :
    ∀ (fuel p : Nat) (acc : List TrendItem), 1 ≤ p → p ≤ maxPages + 1 →
      fuel = maxPages + 1 - p → acc = collect pages (p - 1) →
      ∃ k, k ≤ maxPages ∧ (runPages pages fuel p acc).trends = collect pages k := by
  intro fuel
  induction fuel with
  | zero =>
    intro p acc h1 h2 hf hacc
    have hp : p = maxPages + 1 := by omega
    refine ⟨maxPages, le_refl _, ?_⟩
    simp only [runPages]
    rw [hacc, hp]
    simp
  | succ fuel ih =>
    intro p acc h1 h2 hf hacc
    have hp : p ≤ maxPages := by omega
    have hcoll : acc ++ (pages p).records = collect pages p := by
      rw [hacc, ← collect_eq_append pages p h1]
    simp only [runPages]
    by_cases hA : (pages p).records.length = 0 ∧ p > 1
    · exact ⟨p, hp, by simp [hA, hcoll]⟩
    · rw [if_neg hA]
      cases hb : (pages p).nextButton with
      | none => exact ⟨p, hp, by simp [hcoll]⟩
      | some disabled =>
        by_cases hd : disabled
        · exact ⟨p, hp, by simp [hd, hcoll]⟩
        · by_cases hw : waitOk (pages p)
          · simp only [hd, hw, if_true, if_false, Bool.false_eq_true]
            exact ih (p + 1) (acc ++ (pages p).records) (by omega) (by omega)
              (by omega) (by simpa using hcoll)
          · exact ⟨p, hp, by simp [hd, hw, hcoll]⟩

/-! ### Lemmas: the upsert row selection -/

/-- The inner trend loop of `saveResultsToSupabase` appends exactly the
rows of the active-status trends, in order. -/
theorem inner_fold_eq (r : ScrapeResult) :
    ∀ (ts : List TrendItem) (acc : List SupabaseRow),
      ts.foldl
        (fun acc2 t =>
          if t.status = TrendStatus.active then acc2 ++ [mkRow r t] else acc2)
        acc
      = acc ++ (ts.filter (fun t => t.status = TrendStatus.active)).map (mkRow r) := by
  intro ts
  induction ts with
  | nil => intro acc; simp
  | cons t rest ih =>
    intro acc
    by_cases h : t.status = TrendStatus.active
    · simp [List.foldl_cons, h, ih, List.filter_cons]
    · simp [List.foldl_cons, h, ih, List.filter_cons]

/-- The outer market loop of `saveResultsToSupabase` appends exactly the
claimed rows. -/
theorem outer_fold_eq :
    ∀ (results : List ScrapeResult) (acc : List SupabaseRow),
      results.foldl
        (fun acc r =>
          if r.success = true ∧ 0 < r.trends.length then
            r.trends.foldl
              (fun acc2 t =>
                if t.status = TrendStatus.active then acc2 ++ [mkRow r t] else acc2)
              acc
          else acc)
        acc
      = acc ++ specUpsertRows results := by
  intro results
  induction results with
  | nil => intro acc; simp [specUpsertRows]
  | cons r rest ih =>
    intro acc
    rw [List.foldl_cons]
    by_cases hs : r.success = true ∧ 0 < r.trends.length
    · rw [if_pos hs, inner_fold_eq, ih]
      simp [specUpsertRows, List.filter_cons, hs.1, List.append_assoc]
    · rw [if_neg hs, ih]
      by_cases hsucc : r.success = true
      · have hnil : r.trends = [] := by
          rcases Nat.eq_zero_or_pos r.trends.length with h0 | hpos
          · exact List.length_eq_zero.mp h0
          · exact absurd ⟨hsucc, hpos⟩ hs
        simp [specUpsertRows, List.filter_cons, hsucc, hnil]
      · have hfalse : r.success = false := by
          cases hsv : r.success
          · rfl
          · exact absurd hsv hsucc
        simp [specUpsertRows, List.filter_cons, hfalse]

/-! ### Lemmas: the score merge -/

/-- The batch input entry at position `j` carries id `i + j`. -/
theorem buildGo_getElem :
    ∀ (ts : List TrendItem) (i j : Nat),
      (buildGo i ts)[j]? = (ts[j]?).map
        (fun t => { id := i + j, title := t.title, breakdown := t.breakdown }) := by
  intro ts
  induction ts with
  | nil => intro i j; simp [buildGo]
  | cons t rest ih =>
    intro i j
    cases j with
    | zero => simp [buildGo]
    | succ j =>
      simp only [buildGo, List.getElem?_cons_succ, ih]
      rw [show i + 1 + j = i + (j + 1) by omega]

/-- The merged record at position `j` is the submitted record at position
`j` with `analyses[i + j]` attached when that index exists. -/
theorem mergeGo_getElem (analyses : List AIAnalysisResult) :
    ∀ (ts : List TrendItem) (i j : Nat),
      (mergeGo analyses i ts)[j]? = (ts[j]?).map (fun t =>
        match analyses[i + j]? with
        | some a => { t with analysis := some a }
        | none => t) := by
  intro ts
  induction ts with
  | nil => intro i j; simp [mergeGo]
  | cons t rest ih =>
    intro i j
    cases j with
    | zero => simp [mergeGo]
    | succ j =>
      simp only [mergeGo, List.getElem?_cons_succ, ih]
      rw [show i + 1 + j = i + (j + 1) by omega]

/-! ### Demo inputs used by witnesses and counterexamples -/

/-- A concrete valid trend record. -/
def demoTrend (name : String) : TrendItem :=
  { title := name, searchVolume := 1000, searchTrend := 100,
    timeStarted := "2 hours ago", breakdown := "", status := TrendStatus.active }

/-- A page with one record whose enabled "next" control leads to changed
content (`next` is the first-row text after the click). -/
def pvAdvance (name next : String) : PageView :=
  { records := [demoTrend name], nextButton := some false,
    firstRowBefore := RowState.present (some name),
    postClickPolls := [RowState.present (some next)] }

/-- A page with no records and no "next" control. -/
def pvEmptyStop : PageView :=
  { records := [], nextButton := none, firstRowBefore := RowState.absent,
    postClickPolls := [] }

/-- Page 2 is empty (though enabled to advance), page 3 has data again. -/
def envFirstEmpty : Nat → PageView
  | 2 => { records := [], nextButton := some false,
           firstRowBefore := RowState.absent, postClickPolls := [RowState.absent] }
  | 3 => pvAdvance "c" "d"
  | _ => pvAdvance "a" "b"

/-- Every page, page 1 included, is empty with no "next" control. -/
def envOnlyEmptyFirst : Nat → PageView :=
  fun _ => pvEmptyStop

/-- Every page is empty but advances. -/
def envEmptyAdvance : Nat → PageView :=
  fun _ => { records := [], nextButton := some false,
             firstRowBefore := RowState.absent,
             postClickPolls := [RowState.absent] }

/-- Every page has data and advances: the control is never absent or
disabled. -/
def envAlways : Nat → PageView :=
  fun _ => pvAdvance "a" "b"

/-- Page 2 has data but its "next" control is absent. -/
def envNoButton : Nat → PageView
  | 2 => { records := [demoTrend "b"], nextButton := none,
           firstRowBefore := RowState.absent, postClickPolls := [] }
  | _ => pvAdvance "a" "b"

/-- Page 1 has data and an enabled control, but after the click every poll
still sees the pre-click first-row text: the wait times out. -/
def envStuck : Nat → PageView :=
  fun _ => { records := [demoTrend "a"], nextButton := some false,
             firstRowBefore := RowState.present (some "a"),
             postClickPolls := [RowState.present (some "a")] }

/-! ### Claim theorems -/

/-- C6: the rich volume normalizer maps `"10K+100"` to magnitude `10000`
with delta `+100`, and `"500K+arrow_downward50"` to magnitude `500000`
with delta `-50` (`K` expands ×1000 with integer truncation; the delta is
negative exactly because the `down` marker word precedes the delta
digits). -/
theorem C6_volume_examples :
    parseComplexSearchVolume "10K+100" =
      { volume := some 10000, trend := some 100 } ∧
    parseComplexSearchVolume "500K+arrow_downward50" =
      { volume := some 500000, trend := some (-50) } :=
  ⟨by decide, by decide⟩

/-- C7 counterexample: the claim "for every input the output of
`cleanBreakdown` contains no instance of any known UI-artifact substring"
is false — removing the single occurrence of `"Explore"` from
`"ExplExploreore"` splices the surrounding text into a fresh `"Explore"`,
which survives to the output. -/
theorem C7_counterexample :
    cleanBreakdown "ExplExploreore" = "Explore" ∧
    containsSubstr (cleanBreakdown "ExplExploreore").data "Explore".data = true :=
  ⟨by decide, by decide⟩

/-- Edge characters of a trim-then-collapse pipeline are never JS
whitespace. -/
theorem collapse_trim_edge (l : List Char) :
    (collapseWs (trimL l)).head?.all (fun c => !jsWs c) = true ∧
    (collapseWs (trimL l)).getLast?.all (fun c => !jsWs c) = true := by
  cases ht : trimL l with
  | nil => simp [collapseWs, collapseGo]
  | cons c rest =>
    have hc : jsWs c = false := trimL_head_false l c (by rw [ht]; rfl)
    have hlast : ∀ d, (c :: rest).getLast? = some d → jsWs d = false := by
      intro d hd
      exact trimL_getLast_false l d (by rw [ht]; exact hd)
    obtain ⟨hne, hl⟩ := collapseGo_getLast (c :: rest) false (by simp) hlast
    constructor
    · rw [collapseWs, collapseGo_cons, if_neg (by simp [hc])]
      simp [hc]
    · rw [collapseWs]
      cases hg : (collapseGo false (c :: rest)).getLast? with
      | none => simp
      | some d =>
        have := hl d hg
        simp [this]

/-- C7 (amended): for every input string the output of `cleanBreakdown`
has no leading or trailing whitespace; the no-UI-artifact half of the
original claim fails (see the counterexample), because one left-to-right
removal pass per pattern can splice the surrounding text into a new
artifact occurrence. -/
theorem C7_no_edge_whitespace (s : String) :
    (cleanBreakdown s).data.head?.all (fun c => !jsWs c) = true ∧
    (cleanBreakdown s).data.getLast?.all (fun c => !jsWs c) = true := by
  unfold cleanBreakdown
  exact collapse_trim_edge _

/-- C1 counterexample: page 2 yields zero records and page 3 would yield
data again, yet the loop terminates at page 2 on this first empty page —
there is no two-consecutive-empty-pages tolerance, contradicting the
claim that the first occurrence is only a soft signal. -/
theorem C1_counterexample :
    scrapeLoop envFirstEmpty =
      { trends := [demoTrend "a"], reason := StopReason.emptyPage, lastPage := 2 } ∧
    (envFirstEmpty 3).records ≠ [] ∧
    (scrapeCountrySim (MarketEnv.pages envFirstEmpty)).trends = [demoTrend "a"] :=
  ⟨by decide, by decide, by decide⟩

/-- C1 (amended): when a page with index greater than 1 yields zero
extracted records, the run terminates immediately at that first
occurrence (reason `emptyPage`), retaining the records of the prior
pages, and the market result still reports `success = true`. -/
theorem C1_empty_page_terminates (pages : Nat → PageView) (K : Nat)
    (h1 : 1 < K) (h2 : K ≤ maxPages)
    (hadv : ∀ j, 1 ≤ j → j < K → advancing pages j)
    (hempty : (pages K).records = []) :
    scrapeLoop pages =
      { trends := collect pages (K - 1), reason := StopReason.emptyPage,
        lastPage := K } ∧
    (scrapeCountrySim (MarketEnv.pages pages)).success = true := by
  constructor
  · rw [scrapeLoop_reach pages K (by omega) (by omega) hadv,
      show maxPages + 1 - K = (maxPages - K) + 1 by omega]
    simp only [runPages]
    rw [if_pos ⟨by simp [hempty], h1⟩]
    simp [hempty]
  · rfl

/-- Witness for the amended C1 at a concrete environment. -/
theorem C1_empty_page_terminates_witness :
    scrapeLoop envFirstEmpty =
      { trends := collect envFirstEmpty 1, reason := StopReason.emptyPage,
        lastPage := 2 } ∧
    (scrapeCountrySim (MarketEnv.pages envFirstEmpty)).success = true :=
  C1_empty_page_terminates envFirstEmpty 2 (by decide) (by decide)
    (by
      intro j hj1 hj2
      have hj : j = 1 := by omega
      subst hj
      exact ⟨by decide, by decide, by decide⟩)
    (by decide)

/-- C2 counterexample: with zero records on the first page (and no "next"
control) the run does not fail — it reports `success = true` with an empty
record list, contradicting the claimed `success = false` termination. -/
theorem C2_counterexample :
    scrapeCountrySim (MarketEnv.pages envOnlyEmptyFirst) =
      { trends := [], success := true, error := none } := by
  decide

/-- C2 (amended): a zero-record first page is not treated as a failure:
the run's result still has `success = true`, and the loop proceeds to the
advance decision (with an enabled control and a successful wait it reaches
page 2 rather than terminating). -/
theorem C2_empty_first_page_continues (pages : Nat → PageView)
    (_hempty : (pages 1).records = []) :
    (scrapeCountrySim (MarketEnv.pages pages)).success = true ∧
    ((pages 1).nextButton = some false → waitOk (pages 1) = true →
      2 ≤ (scrapeLoop pages).lastPage) := by
  constructor
  · rfl
  · intro hbtn hwait
    rw [scrapeLoop, show maxPages = 24 + 1 from rfl]
    simp only [runPages]
    rw [if_neg (by simp), hbtn, hwait]
    exact runPages_lastPage_ge pages 24 2 _

/-- Witness for the amended C2 at a concrete environment. -/
theorem C2_empty_first_page_continues_witness :
    (scrapeCountrySim (MarketEnv.pages envEmptyAdvance)).success = true ∧
    2 ≤ (scrapeLoop envEmptyAdvance).lastPage :=
  ⟨(C2_empty_first_page_continues envEmptyAdvance rfl).1,
   (C2_empty_first_page_continues envEmptyAdvance rfl).2 rfl (by decide)⟩

/-- C3: for every environment the loop terminates with the records of at
most `maxPages` pages and `success = true`; in particular on an
environment whose every page advances (a "next" control that is never
absent or disabled) it stops at the page cap keeping the records of
pages 1..`maxPages`. -/
theorem C3_page_cap (pages : Nat → PageView) :
    (∃ k, k ≤ maxPages ∧
      (scrapeCountrySim (MarketEnv.pages pages)).trends = collect pages k) ∧
    (scrapeCountrySim (MarketEnv.pages pages)).success = true ∧
    ((∀ j, 1 ≤ j → j ≤ maxPages → advancing pages j) →
      (scrapeLoop pages).reason = StopReason.pageCap ∧
      (scrapeLoop pages).trends = collect pages maxPages ∧
      (scrapeCountrySim (MarketEnv.pages pages)).success = true) := by
  refine ⟨?_, rfl, ?_⟩
  · exact runPages_shape pages maxPages 1 [] (by omega) (by omega) (by omega)
      (by simp [collect])
  · intro hadv
    have hreach := scrapeLoop_reach pages (maxPages + 1) (by omega) (by omega)
      (fun j hj1 hj2 => hadv j hj1 (by omega))
    rw [show maxPages + 1 - (maxPages + 1) = 0 by omega] at hreach
    rw [show maxPages + 1 - 1 = maxPages by omega] at hreach
    rw [hreach]
    exact ⟨rfl, rfl, rfl⟩

/-- Every page of `envAlways` advances. -/
theorem envAlways_advancing (j : Nat) : advancing envAlways j :=
  ⟨show (pvAdvance "a" "b").records ≠ [] by decide,
   show (pvAdvance "a" "b").nextButton = some false by decide,
   show waitOk (pvAdvance "a" "b") = true by decide⟩

/-- Witness for C3's circuit-breaker conjunct at a concrete environment
whose "next" control is never absent or disabled. -/
theorem C3_page_cap_witness :
    (scrapeLoop envAlways).reason = StopReason.pageCap ∧
    (scrapeLoop envAlways).trends = collect envAlways maxPages ∧
    (scrapeCountrySim (MarketEnv.pages envAlways)).success = true :=
  (C3_page_cap envAlways).2.2 (fun j _ _ => envAlways_advancing j)

/-- C4: if the "next" control is absent on page `K`, or present with its
disabled flag set, the loop terminates after page `K` with exactly the
records of pages 1..`K` and `success = true`. -/
theorem C4_end_of_data (pages : Nat → PageView) (K : Nat)
    (h1 : 1 ≤ K) (h2 : K ≤ maxPages)
    (hadv : ∀ j, 1 ≤ j → j < K → advancing pages j)
    (hrec : (pages K).records ≠ [] ∨ K = 1)
    (hbtn : (pages K).nextButton = none ∨ (pages K).nextButton = some true) :
    (scrapeLoop pages).trends = collect pages K ∧
    (scrapeLoop pages).lastPage = K ∧
    (scrapeCountrySim (MarketEnv.pages pages)).success = true := by
  have hlen : ¬((pages K).records.length = 0 ∧ K > 1) := by
    rintro ⟨hl, hK⟩
    rcases hrec with h | h
    · exact h (List.length_eq_zero.mp hl)
    · omega
  rw [scrapeLoop_reach pages K h1 (by omega) hadv,
    show maxPages + 1 - K = (maxPages - K) + 1 by omega]
  simp only [runPages]
  rw [if_neg hlen, collect_eq_append pages K h1]
  rcases hbtn with hb | hb <;> rw [hb] <;> exact ⟨rfl, rfl, rfl⟩

/-- Witness for C4 at a concrete environment whose page 2 has no "next"
control. -/
theorem C4_end_of_data_witness :
    (scrapeLoop envNoButton).trends = collect envNoButton 2 ∧
    (scrapeLoop envNoButton).lastPage = 2 ∧
    (scrapeCountrySim (MarketEnv.pages envNoButton)).success = true :=
  C4_end_of_data envNoButton 2 (by decide) (by decide)
    (by
      intro j hj1 hj2
      have hj : j = 1 := by omega
      subst hj
      exact ⟨by decide, by decide, by decide⟩)
    (Or.inl (by decide)) (Or.inl (by decide))

/-- C5: the post-click wait polls exactly the condition "the first-row
element no longer exists, or its trimmed text differs from the captured
pre-click fingerprint"; when no poll ever satisfies it (the bounded wait
times out), the run terminates keeping all records collected so far, with
`success = true`. -/
theorem C5_advance_wait (pages : Nat → PageView) (K : Nat)
    (h1 : 1 ≤ K) (h2 : K ≤ maxPages)
    (hadv : ∀ j, 1 ≤ j → j < K → advancing pages j)
    (hrec : (pages K).records ≠ [] ∨ K = 1)
    (hbtn : (pages K).nextButton = some false)
    (hwait : waitOk (pages K) = false) :
    (∀ st fp, changePredicate st fp = true ↔ specContentChanged st fp) ∧
    scrapeLoop pages =
      { trends := collect pages K, reason := StopReason.advanceTimeout,
        lastPage := K } ∧
    (scrapeCountrySim (MarketEnv.pages pages)).success = true := by
  refine ⟨?_, ?_, rfl⟩
  · intro st fp
    cases st with
    | absent => simp [changePredicate, specContentChanged]
    | present txt => simp [changePredicate, specContentChanged]
  · have hlen : ¬((pages K).records.length = 0 ∧ K > 1) := by
      rintro ⟨hl, hK⟩
      rcases hrec with h | h
      · exact h (List.length_eq_zero.mp hl)
      · omega
    rw [scrapeLoop_reach pages K h1 (by omega) hadv,
      show maxPages + 1 - K = (maxPages - K) + 1 by omega]
    simp only [runPages]
    rw [if_neg hlen, hbtn, hwait, collect_eq_append pages K h1]
    rfl

/-- Witness for C5's timeout conjunct at a concrete environment whose
post-click polls never see a change. -/
theorem C5_advance_wait_witness :
    scrapeLoop envStuck =
      { trends := collect envStuck 1, reason := StopReason.advanceTimeout,
        lastPage := 1 } :=
  (C5_advance_wait envStuck 1 (by decide) (by decide)
    (by intro j hj1 hj2; exact absurd hj2 (by omega))
    (Or.inr rfl) (by decide) (by decide)).2.1

/-- A two-record batch with distinct titles. -/
def demoBatch : List TrendItem :=
  [{ title := "alpha", searchVolume := 0, searchTrend := 0, timeStarted := "",
     breakdown := "", status := TrendStatus.active },
   { title := "beta", searchVolume := 0, searchTrend := 0, timeStarted := "",
     breakdown := "", status := TrendStatus.active }]

/-- A response covering every submitted id (0 and 1), but in reversed
order. -/
def demoSwappedResponse : List AIAnalysisResult :=
  [{ id := 1, saas_potential_score := 10 }, { id := 0, saas_potential_score := 20 }]

/-- An in-order response for one record. -/
def demoOrderedResponse : List AIAnalysisResult :=
  [{ id := 0, saas_potential_score := 42 }]

/-- A one-record batch. -/
def demoBatchOne : List TrendItem :=
  [{ title := "alpha", searchVolume := 0, searchTrend := 0, timeStarted := "",
     breakdown := "", status := TrendStatus.active }]

/-- C8 counterexample: the response covers every submitted id, but with
the array reversed the record submitted with id 0 receives the score
object carrying id 1 (and vice versa) — the merge is by array position,
not by the id key, so the claim fails for a permuted response. -/
theorem C8_counterexample :
    (∀ i, i < 2 → ∃ a, a ∈ demoSwappedResponse ∧ a.id = i) ∧
    (mergeAnalyses demoBatch demoSwappedResponse).map TrendItem.analysis =
      [some { id := 1, saas_potential_score := 10 },
       some { id := 0, saas_potential_score := 20 }] :=
  ⟨by decide, by decide⟩

/-- C8 (amended): the submitted ids are the batch positions, and the merge
attaches `analyses[i]` to the record at position `i`; therefore the score
carrying id `i` reaches the record assigned id `i` exactly when the
response array is in submission order (`analyses[j].id = j`), not for an
arbitrary order. -/
theorem C8_merge_by_position (batch : List TrendItem)
    (analyses : List AIAnalysisResult)
    (hlen : analyses.length = batch.length)
    (hord : ∀ (j : Nat) (a : AIAnalysisResult), analyses[j]? = some a → a.id = j) :
    (∀ (j : Nat) (e : BatchEntry), (buildBatchInput batch)[j]? = some e → e.id = j) ∧
    (∀ (j : Nat) (t : TrendItem), (mergeAnalyses batch analyses)[j]? = some t →
      ∃ (a : AIAnalysisResult) (b : TrendItem),
        batch[j]? = some b ∧ analyses[j]? = some a ∧ a.id = j ∧
        t = { b with analysis := some a }) := by
  constructor
  · intro j e he
    unfold buildBatchInput at he
    rw [buildGo_getElem, Option.map_eq_some'] at he
    obtain ⟨b, hb, he⟩ := he
    rw [← he]
    simp
  · intro j t ht
    unfold mergeAnalyses at ht
    rw [mergeGo_getElem] at ht
    rw [Option.map_eq_some'] at ht
    obtain ⟨b, hb, hbt⟩ := ht
    have hjlt : j < batch.length := by
      by_contra hge
      rw [List.getElem?_eq_none (by omega)] at hb
      exact Option.noConfusion hb
    have hjlt2 : j < analyses.length := by omega
    have ha : analyses[j]? = some analyses[j] := List.getElem?_eq_getElem hjlt2
    refine ⟨analyses[j], b, hb, ha, hord j analyses[j] ha, ?_⟩
    rw [← hbt, show 0 + j = j by omega, ha]

/-- Witness for the amended C8 at a one-record batch with an in-order
response. -/
theorem C8_merge_by_position_witness :
    ∃ (a : AIAnalysisResult) (b : TrendItem),
      demoBatchOne[0]? = some b ∧ demoOrderedResponse[0]? = some a ∧
      a.id = 0 ∧
      ({ title := "alpha", searchVolume := 0, searchTrend := 0,
         timeStarted := "", breakdown := "", status := TrendStatus.active,
         analysis := some { id := 0, saas_potential_score := 42 } } : TrendItem) =
        { b with analysis := some a } :=
  (C8_merge_by_position demoBatchOne demoOrderedResponse rfl
    (by
      intro j a h
      match j with
      | 0 =>
        simp [demoOrderedResponse] at h
        rw [← h]
      | j + 1 => simp [demoOrderedResponse] at h)).2 0 _ (by decide)

/-- C9: a market whose run throws (for example the initial load timing
out) yields a result with `success = false` and the error string on that
result only; every configured market still contributes its own result to
the batch, unaffected by the failure. -/
theorem C9_market_isolation (markets : List MarketEnv) (j : Nat) (msg : String)
    (hj : markets[j]? = some (MarketEnv.fatal msg)) :
    (scrapeAllSim markets).length = markets.length ∧
    (scrapeAllSim markets)[j]? =
      some { trends := [], success := false, error := some msg } ∧
    (∀ (i : Nat) (m : MarketEnv), markets[i]? = some m →
      (scrapeAllSim markets)[i]? = some (scrapeCountrySim m)) := by
  refine ⟨List.length_map _ _, ?_, ?_⟩
  · rw [scrapeAllSim, List.getElem?_map, hj]
    rfl
  · intro i m hm
    rw [scrapeAllSim, List.getElem?_map, hm]
    rfl

/-- A batch where the first market fails fatally and the second runs. -/
def demoMarkets : List MarketEnv :=
  [MarketEnv.fatal "Navigation timeout of 30000 ms exceeded",
   MarketEnv.pages envAlways]

/-- Witness for C9: the failed market's result carries the error, the next
market still produces its own result. -/
theorem C9_market_isolation_witness :
    (scrapeAllSim demoMarkets)[0]? =
      some { trends := [], success := false,
             error := some "Navigation timeout of 30000 ms exceeded" } ∧
    (scrapeAllSim demoMarkets)[1]? =
      some (scrapeCountrySim (MarketEnv.pages envAlways)) :=
  ⟨(C9_market_isolation demoMarkets 0 "Navigation timeout of 30000 ms exceeded" rfl).2.1,
   (C9_market_isolation demoMarkets 0 "Navigation timeout of 30000 ms exceeded" rfl).2.2
     1 _ rfl⟩

/-- C10: the rows sent to the Supabase upsert are exactly the
active-status trends of the `success = true` market results (in order),
and no persisted row has status `lasted`. -/
theorem C10_upsert_rows (results : List ScrapeResult) :
    trendsToInsert results = specUpsertRows results ∧
    (trendsToInsert results).all
      (fun row => decide (row.status = TrendStatus.active)) = true := by
  have heq : trendsToInsert results = specUpsertRows results := by
    rw [trendsToInsert, outer_fold_eq]
    simp
  refine ⟨heq, ?_⟩
  rw [heq, List.all_eq_true]
  intro row hrow
  rw [specUpsertRows] at hrow
  simp only [List.mem_flatMap, List.mem_map, List.mem_filter] at hrow
  obtain ⟨r, hr, t, ht, hrow⟩ := hrow
  rw [← hrow]
  simpa [mkRow] using ht.2
